import Mathlib

/-!
Shallow embedding of `src/main.cpp`: a point-to-point flight route finder
over a fixed list of directed, weighted edges ("flights"), with an
exhaustive depth-first strategy (explicit backtracking stack) and a
one-step-lookahead "breadth-first" strategy.

Modelling conventions:
* `std::array<char, 20>` name buffers are modelled by truncating the stored
  name to its first 20 characters (`trunc`); the buffers are zero-filled, so
  a stored name SHORTER than 20 characters is NUL-terminated and reads back
  exactly, and the model is faithful. A name of 20 or more characters fills
  the buffer with no terminator, and every later readback
  (`string_view(from.data())`, a strlen-style scan) overruns the array:
  undefined behaviour, dependent on the struct's memory layout. The model
  does not claim to capture that regime; every concrete name used below is
  shorter than 20 characters.
* `std::vector<Flight> db` is a `List Flight` in insertion order.
* `std::stack<Flight> bt` is a `List Flight` whose head is the stack top.
* the unbounded recursion / `while (true)` loop of `search_flight` is given
  explicit fuel; `SearchOutcome.outOfFuel` marks fuel exhaustion only.
* `bt.top()` on an empty stack (undefined behaviour in C++) is the outcome
  `SearchOutcome.stackUnderflow`; `std::optional::value()` on an empty
  optional (throws `std::bad_optional_access`) is `SearchOutcome.valueCrash`.
* `int` distances are `Int`.
-/

/-- The first 20 characters of a name: what the 20-byte `std::array<char, 20>`
buffer of `Flight` keeps of it. For names shorter than 20 characters (the
only regime the theorems below evaluate names in) this is the name itself,
and the zero-filled buffer reads back exactly this string. -/
def trunc (s : String) : String := String.mk (s.data.take 20)

/-- `struct Flight` of `src/main.cpp`: one directed edge. The C++ field
`from` is a Lean keyword and `to` a reserved token, so they are called
`from_` and `to_` here. -/
structure Flight where
  from_ : String
  to_ : String
  skip : Bool
  distance : Int
deriving Repr, DecidableEq

/-- The two-argument `Flight` constructor: copies at most 20 characters of
each name into the buffers and starts with `skip = false`. -/
def mkFlight (from_to : String × String) (distance : Int) : Flight :=
  ⟨trunc from_to.1, trunc from_to.2, false, distance⟩

/-- `Flight::operator==`: compares the full query pair against the stored
names, character for character (faithful for stored names shorter than 20
characters, where the buffer read is well defined). -/
def flightEq (f : Flight) (from_to : String × String) : Bool :=
  (from_to.1 == f.from_) && (from_to.2 == f.to_)

/-- `FlightDB::append_flight`: `db.emplace_back(from_to, distance)` — appends
unconditionally (the template capacity `N` is only used for `reserve`). -/
def append_flight (db : List Flight) (from_to : String × String)
    (distance : Int) : List Flight :=
  db ++ [mkFlight from_to distance]

/-- `FlightDB::get_distance`: `std::find_if` over the vector in insertion
order; the distance of the first record equal (via `operator==`) to the
query pair, else none. It does not mutate the vector. -/
def get_distance (db : List Flight) (from_to : String × String) : Option Int :=
  (db.find? (fun f => flightEq f from_to)).map Flight.distance

/-- `FlightDB::find_connecting`: scans the vector in insertion order for the
first record whose stored origin equals `frm` and whose `skip` is false;
marks it `skip = true` and returns its stored destination and distance.
Returns the possibly-updated vector alongside the result. -/
def find_connecting (db : List Flight) (frm : String) :
    Option (String × Int) × List Flight :=
  match db with
  | [] => (none, [])
  | f :: rest =>
    if (frm == f.from_) && !f.skip then
      (some (f.to_, f.distance), { f with skip := true } :: rest)
    else
      let (r, rest') := find_connecting rest frm
      (r, f :: rest')

/-- How one `search_flight` invocation ends in the model. -/
inductive SearchOutcome where
  | found
  | stackUnderflow
  | valueCrash
  | outOfFuel
deriving Repr, DecidableEq

/-- The code after the direct-edge check in `search_flight<DepthFirst>`
("try another connection" onwards): extend via `find_connecting`, pushing
`Flight(from_to, d)`, or backtrack by popping the stack. `recur` is the
recursive call `search_flight`. The backtrack branch reads `bt.top()` of an
empty stack when `bt` is empty: undefined behaviour in the C++, reported
here as `stackUnderflow`. -/
def dfs_extend
    (recur : List Flight → List Flight → String × String →
      SearchOutcome × List Flight × List Flight)
    (db bt : List Flight) (from_to : String × String) :
    SearchOutcome × List Flight × List Flight :=
  match find_connecting db from_to.1 with
  | (some (anywhere, d), db') =>
      recur db' (mkFlight from_to d :: bt) (anywhere, from_to.2)
  | (none, db') =>
      match bt with
      | [] => (.stackUnderflow, db', [])
      | f :: bt' => recur db' bt' (f.from_, f.to_)

/-- `search_flight<SearchMethod::DepthFirst>`: if the direct distance
`get_distance(from_to).value_or(0)` is positive, push `Flight(from_to, dist)`
and stop; otherwise run the extension/backtracking code. -/
def search_flight_dfs :
    Nat → List Flight → List Flight → String × String →
      SearchOutcome × List Flight × List Flight
  | 0, db, bt, _ => (.outOfFuel, db, bt)
  | fuel + 1, db, bt, from_to =>
    let dist := (get_distance db from_to).getD 0
    if 0 < dist then
      (.found, db, mkFlight from_to dist :: bt)
    else
      dfs_extend (search_flight_dfs fuel) db bt from_to

/-- `search_flight<SearchMethod::BreadthFirst>`: the `while (true)` loop.
Each turn calls `find_connecting(from)` and then `res.value()`; when the
optional is empty that throws `std::bad_optional_access` (`valueCrash`).
Otherwise, if the edge's distance is positive and the intermediate city has
a positive direct distance to the destination, push `Flight(from_to, dist)`
then `Flight(any_to, d)` and stop; else loop. (The code after the loop in
the C++ is unreachable for this instantiation.) -/
def search_flight_bfs :
    Nat → List Flight → List Flight → String × String →
      SearchOutcome × List Flight × List Flight
  | 0, db, bt, _ => (.outOfFuel, db, bt)
  | fuel + 1, db, bt, from_to =>
    match find_connecting db from_to.1 with
    | (none, db') => (.valueCrash, db', bt)
    | (some (anywhere, dist), db') =>
      if 0 < dist then
        let any_to := (anywhere, from_to.2)
        let d := (get_distance db' any_to).getD 0
        if 0 < d then
          (.found, db', mkFlight any_to d :: mkFlight from_to dist :: bt)
        else
          search_flight_bfs fuel db' bt from_to
      else
        search_flight_bfs fuel db' bt from_to

/-- `FlightDB::route<DepthFirst>`: run the search from an empty stack, then
drain the stack top-first, printing each popped record's stored origin and
summing the distances, closing with the queried destination name. The
result is the printed sequence of names and the printed total distance;
`none` when the search did not return normally (in the C++ the program has
crashed then, so nothing is printed). -/
def route_dfs (fuel : Nat) (db : List Flight) (from_to : String × String) :
    Option (List String × Int) :=
  match search_flight_dfs fuel db [] from_to with
  | (.found, _, bt) =>
      some (bt.map Flight.from_ ++ [from_to.2], (bt.map Flight.distance).sum)
  | _ => none

/-- The sample graph hard-coded in `main`, in insertion order. -/
def sampleDb : List Flight :=
  [mkFlight ("New York", "Chicago") 1000,
   mkFlight ("Chicago", "Denver") 1000,
   mkFlight ("New York", "Toronto") 800,
   mkFlight ("New York", "Denver") 1900,
   mkFlight ("Toronto", "Calgary") 1500,
   mkFlight ("Toronto", "Los Angeles") 1800,
   mkFlight ("Toronto", "Chicago") 500,
   mkFlight ("Denver", "Urbana") 1000,
   mkFlight ("Denver", "Houston") 1500,
   mkFlight ("Houston", "Los Angeles") 1500,
   mkFlight ("Denver", "Los Angeles") 1000]

/-- The selection predicate of `find_connecting`, named: the record's stored
origin equals the queried name and its `skip` marker is false. -/
def matches_unvisited (frm : String) (f : Flight) : Bool :=
  (frm == f.from_) && !f.skip

/-- The spec's own description of `next_unvisited_departure` (§4.1), stated
independently of the code's recursion: split the list at the first record
matching `matches_unvisited`; if there is one, mark it visited in place and
return its destination and weight, otherwise return none and keep the list. -/
def next_unvisited_departure (db : List Flight) (frm : String) :
    Option (String × Int) × List Flight :=
  match db.dropWhile (fun f => !(matches_unvisited frm f)) with
  | [] => (none, db)
  | f :: rest =>
      (some (f.to_, f.distance),
        db.takeWhile (fun f => !(matches_unvisited frm f))
          ++ ({ f with skip := true } :: rest))

/-- The spec's own description of `exact_distance` (§4.1), stated over bare
`(origin, destination, weight)` triples — no `visited` marker exists in its
input at all: the weight of the first triple in order whose origin and
destination both equal the query, character for character. -/
def exact_distance (edges : List (String × String × Int))
    (from_to : String × String) : Option Int :=
  (edges.find? (fun e => (from_to.1 == e.1) && (from_to.2 == e.2.1))).map
    (fun e => e.2.2)

/-- The `(origin, destination, weight)` triples of a graph, in insertion
order, with the `skip` markers forgotten. -/
def edge_data (db : List Flight) : List (String × String × Int) :=
  db.map (fun f => (f.from_, f.to_, f.distance))


/-- `get_distance` agrees with the spec's `exact_distance` on the graph's
bare edge triples: first match in insertion order, full case-sensitive
equality, and — since `edge_data` forgets `skip` — independence from every
`visited` marker. -/
theorem get_distance_eq_exact_distance (db : List Flight)
    (from_to : String × String) :
    get_distance db from_to = exact_distance (edge_data db) from_to := by
  induction db with
  | nil => rfl
  | cons f rest ih =>
      cases h : flightEq f from_to with
      | true =>
          simp only [flightEq] at h
          simp [get_distance, exact_distance, edge_data, List.find?_cons, h,
            flightEq]
      | false =>
          simp only [flightEq] at h
          simpa [get_distance, exact_distance, edge_data, List.find?_cons, h,
            flightEq] using ih

/-- `find_connecting` agrees with the spec's `next_unvisited_departure`:
the first unvisited matching record in insertion order is marked visited and
its destination and weight returned; when there is none the graph is
returned unchanged. -/
theorem find_connecting_eq_next_unvisited_departure (db : List Flight)
    (frm : String) :
    find_connecting db frm = next_unvisited_departure db frm := by
  induction db with
  | nil => rfl
  | cons f rest ih =>
      cases h : matches_unvisited frm f with
      | true =>
          have hc : ((frm == f.from_) && !f.skip) = true := h
          simp only [find_connecting, hc, if_true]
          unfold next_unvisited_departure
          rw [List.dropWhile_cons, List.takeWhile_cons]
          simp [h]
      | false =>
          have hc : ((frm == f.from_) && !f.skip) = false := h
          simp only [find_connecting, hc, Bool.false_eq_true, if_false]
          rw [ih]
          unfold next_unvisited_departure
          rw [List.dropWhile_cons, List.takeWhile_cons]
          simp only [h, Bool.not_false, if_true]
          cases hd : rest.dropWhile (fun g => !(matches_unvisited frm g)) with
          | nil => simp [hd]
          | cons g gs => simp [hd]

/-- What one search step may do to one stored record: origin, destination
and weight are untouched, and the `skip` marker may only go from false to
true, never back. -/
def EdgePreserved (f f' : Flight) : Prop :=
  f'.from_ = f.from_ ∧ f'.to_ = f.to_ ∧ f'.distance = f.distance ∧
    (f.skip = true → f'.skip = true)

/-- Record-wise preservation over the whole graph: same number of records,
in the same order, each preserved in the sense of `EdgePreserved`. -/
def GraphPreserved (db db' : List Flight) : Prop :=
  List.Forall₂ EdgePreserved db db'

theorem edgePreserved_refl (f : Flight) : EdgePreserved f f :=
  ⟨rfl, rfl, rfl, id⟩

theorem graphPreserved_refl (db : List Flight) : GraphPreserved db db := by
  induction db with
  | nil => exact List.Forall₂.nil
  | cons f rest ih => exact List.Forall₂.cons (edgePreserved_refl f) ih

theorem edgePreserved_trans {a b c : Flight} (h₁ : EdgePreserved a b)
    (h₂ : EdgePreserved b c) : EdgePreserved a c := by
  obtain ⟨x1, x2, x3, x4⟩ := h₁
  obtain ⟨y1, y2, y3, y4⟩ := h₂
  exact ⟨y1.trans x1, y2.trans x2, y3.trans x3, fun hs => y4 (x4 hs)⟩

theorem graphPreserved_trans {a b c : List Flight} (h₁ : GraphPreserved a b)
    (h₂ : GraphPreserved b c) : GraphPreserved a c := by
  induction h₁ generalizing c with
  | nil => cases h₂; exact List.Forall₂.nil
  | cons hfg _ ih =>
      cases h₂ with
      | cons hgk htail => exact List.Forall₂.cons (edgePreserved_trans hfg hgk) (ih htail)

theorem graphPreserved_length {a b : List Flight} (h : GraphPreserved a b) :
    b.length = a.length :=
  h.length_eq.symm

/-- `find_connecting` preserves the graph: it touches at most one record and
only by setting its `skip` marker. -/
theorem find_connecting_preserves (db : List Flight) (frm : String) :
    GraphPreserved db (find_connecting db frm).2 := by
  induction db with
  | nil => exact List.Forall₂.nil
  | cons f rest ih =>
      by_cases hc : ((frm == f.from_) && !f.skip) = true
      · simp only [find_connecting, hc, if_true]
        exact List.Forall₂.cons ⟨rfl, rfl, rfl, fun _ => rfl⟩
          (graphPreserved_refl rest)
      · simp only [find_connecting, hc, if_false]
        exact List.Forall₂.cons (edgePreserved_refl f) ih

theorem find_connecting_preserves_eq {db db' : List Flight} {frm : String}
    {r : Option (String × Int)} (h : find_connecting db frm = (r, db')) :
    GraphPreserved db db' := by
  have := find_connecting_preserves db frm
  rw [h] at this
  exact this

theorem search_flight_dfs_preserves (fuel : Nat) :
    ∀ (db bt : List Flight) (from_to : String × String),
      GraphPreserved db (search_flight_dfs fuel db bt from_to).2.1 := by
  induction fuel with
  | zero => intro db bt from_to; exact graphPreserved_refl db
  | succ fuel ih =>
      intro db bt from_to
      simp only [search_flight_dfs]
      by_cases hd : 0 < (get_distance db from_to).getD 0
      · simp only [hd, if_true]
        exact graphPreserved_refl db
      · simp only [hd, if_false]
        unfold dfs_extend
        rcases hf : find_connecting db from_to.1 with ⟨r, db'⟩
        have hp : GraphPreserved db db' := find_connecting_preserves_eq hf
        rcases r with _ | ⟨anywhere, d⟩
        · cases bt with
          | nil => exact hp
          | cons f bt' => exact graphPreserved_trans hp (ih db' bt' (f.from_, f.to_))
        · exact graphPreserved_trans hp
            (ih db' (mkFlight from_to d :: bt) (anywhere, from_to.2))

theorem search_flight_bfs_preserves (fuel : Nat) :
    ∀ (db bt : List Flight) (from_to : String × String),
      GraphPreserved db (search_flight_bfs fuel db bt from_to).2.1 := by
  induction fuel with
  | zero => intro db bt from_to; exact graphPreserved_refl db
  | succ fuel ih =>
      intro db bt from_to
      simp only [search_flight_bfs]
      rcases hf : find_connecting db from_to.1 with ⟨r, db'⟩
      have hp : GraphPreserved db db' := find_connecting_preserves_eq hf
      rcases r with _ | ⟨anywhere, dist⟩
      · exact hp
      · by_cases h1 : (0 : Int) < dist
        · simp only [h1, if_true]
          by_cases h2 : 0 < (get_distance db' (anywhere, from_to.2)).getD 0
          · simp only [h2, if_true]
            exact hp
          · simp only [h2, if_false]
            exact graphPreserved_trans hp (ih db' bt from_to)
        · simp only [h1, if_false]
          exact graphPreserved_trans hp (ih db' bt from_to)

theorem trunc_trunc (s : String) : trunc (trunc s) = trunc s := by
  simp [trunc, List.take_take]

/-- The stack invariant of the depth-first search: if every frame's
destination field is `t₀` and the bottom frame's origin is `o₀` (or, with an
empty stack, the current origin truncates to `o₀`), then a successful search
ends with a nonempty stack whose bottom frame's origin is `o₀` and whose
frames all carry destination `t₀`. -/
theorem dfs_stack_invariant (fuel : Nat) :
    ∀ (db bt : List Flight) (from_to : String × String) (o₀ t₀ : String)
      (outc : SearchOutcome) (db' bt' : List Flight),
      search_flight_dfs fuel db bt from_to = (outc, db', bt') →
      trunc o₀ = o₀ → trunc t₀ = t₀ →
      trunc from_to.2 = t₀ →
      (bt = [] → trunc from_to.1 = o₀) →
      (∀ f, bt.getLast? = some f → f.from_ = o₀) →
      (∀ f ∈ bt, f.to_ = t₀) →
      outc = .found →
      bt' ≠ [] ∧ (∀ f, bt'.getLast? = some f → f.from_ = o₀) ∧
        (∀ f ∈ bt', f.to_ = t₀) := by
  induction fuel with
  | zero =>
      intro db bt from_to o₀ t₀ outc db' bt' h _ _ _ _ _ _ hfound
      simp only [search_flight_dfs, Prod.mk.injEq] at h
      obtain ⟨ho, -, -⟩ := h
      rw [← ho] at hfound
      simp at hfound
  | succ fuel ih =>
      intro db bt from_to o₀ t₀ outc db' bt' h ho ht h2 h4 h5 h6 hfound
      simp only [search_flight_dfs] at h
      by_cases hd : 0 < (get_distance db from_to).getD 0
      · simp only [hd, if_true, Prod.mk.injEq] at h
        obtain ⟨-, -, hbt⟩ := h
        subst hbt
        refine ⟨by simp, ?_, ?_⟩
        · intro f hf
          cases bt with
          | nil =>
              simp only [List.getLast?_singleton, Option.some.injEq] at hf
              subst hf
              exact h4 rfl
          | cons g bt'' =>
              rw [List.getLast?_cons_cons] at hf
              exact h5 f hf
        · intro f hf
          rcases List.mem_cons.mp hf with hf | hf
          · subst hf; exact h2
          · exact h6 f hf
      · simp only [hd, if_false] at h
        unfold dfs_extend at h
        rcases hfc : find_connecting db from_to.1 with ⟨r, dbm⟩
        rw [hfc] at h
        rcases r with _ | ⟨anywhere, d⟩
        · cases bt with
          | nil =>
              simp only [Prod.mk.injEq] at h
              obtain ⟨hou, -, -⟩ := h
              rw [← hou] at hfound
              simp at hfound
          | cons f bt'' =>
              refine ih dbm bt'' (f.from_, f.to_) o₀ t₀ outc db' bt' h ho ht ?_ ?_ ?_ ?_ hfound
              · have : f.to_ = t₀ := h6 f (List.mem_cons_self f bt'')
                simpa [this] using ht
              · intro hbt
                subst hbt
                have : f.from_ = o₀ := h5 f (List.getLast?_singleton f)
                simpa [this] using ho
              · intro g hg
                cases bt'' with
                | nil => simp at hg
                | cons g₀ bts =>
                    exact h5 g (by rw [List.getLast?_cons_cons]; exact hg)
              · intro g hg
                exact h6 g (List.mem_cons_of_mem f hg)
        · refine ih dbm (mkFlight from_to d :: bt) (anywhere, from_to.2) o₀ t₀
            outc db' bt' h ho ht h2 (by intro hc; cases hc) ?_ ?_ hfound
          · intro f hf
            cases bt with
            | nil =>
                simp only [List.getLast?_singleton, Option.some.injEq] at hf
                subst hf
                exact h4 rfl
            | cons g bt'' =>
                rw [List.getLast?_cons_cons] at hf
                exact h5 f hf
          · intro f hf
            rcases List.mem_cons.mp hf with hf | hf
            · subst hf; exact h2
            · exact h6 f hf

/-- C5 (amended): a successful depth-first search leaves the traversed edges
on the stack in reverse-of-discovery order and `route` drains the stack
without reversing: the presented sequence of origins runs from the origin of
the last-discovered edge back to the requested origin (which is the origin
of the LAST presented frame, not the first), every frame's destination field
is the (truncated) requested destination, and the reported total distance is
the sum of the traversed edges' weights. -/
theorem dfs_route_reversed_with_total (fuel : Nat) (db : List Flight)
    (from_to : String × String) (db' bt' : List Flight)
    (h : search_flight_dfs fuel db [] from_to = (.found, db', bt')) :
    bt' ≠ [] ∧
    (∀ f, bt'.getLast? = some f → f.from_ = trunc from_to.1) ∧
    (∀ f ∈ bt', f.to_ = trunc from_to.2) ∧
    route_dfs fuel db from_to
      = some (bt'.map Flight.from_ ++ [from_to.2],
          (bt'.map Flight.distance).sum) := by
  obtain ⟨h1, h2, h3⟩ :=
    dfs_stack_invariant fuel db [] from_to (trunc from_to.1) (trunc from_to.2)
      .found db' bt' h (trunc_trunc _) (trunc_trunc _) rfl (fun _ => rfl)
      (by intro f hf; simp at hf) (by intro f hf; simp at hf) rfl
  refine ⟨h1, h2, h3, ?_⟩
  unfold route_dfs
  rw [h]

/-- Witness for `dfs_route_reversed_with_total` at the concrete two-edge
graph A→B→C with query (A, C). -/
theorem dfs_route_reversed_with_total_witness :
    ([mkFlight ("B", "C") 4, mkFlight ("A", "C") 3] : List Flight) ≠ [] ∧
    (∀ f, ([mkFlight ("B", "C") 4, mkFlight ("A", "C") 3] : List Flight).getLast?
        = some f → f.from_ = trunc "A") ∧
    (∀ f ∈ ([mkFlight ("B", "C") 4, mkFlight ("A", "C") 3] : List Flight),
        f.to_ = trunc "C") ∧
    route_dfs 10 [mkFlight ("A", "B") 3, mkFlight ("B", "C") 4] ("A", "C")
      = some (([mkFlight ("B", "C") 4, mkFlight ("A", "C") 3].map Flight.from_)
            ++ ["C"],
          ([mkFlight ("B", "C") 4, mkFlight ("A", "C") 3].map
            Flight.distance).sum) :=
  dfs_route_reversed_with_total 10 [mkFlight ("A", "B") 3, mkFlight ("B", "C") 4]
    ("A", "C")
    [{ mkFlight ("A", "B") 3 with skip := true }, mkFlight ("B", "C") 4]
    [mkFlight ("B", "C") 4, mkFlight ("A", "C") 3] (by decide)

/-- C5 counterexample: on the sample graph of `main`, the depth-first route
from "New York" to "Los Angeles" is presented as Denver, Chicago, New York,
Los Angeles — the first presented origin is "Denver", not the requested
origin "New York", so the path is not presented in forward order (the total
distance, 3000, is correct). -/
theorem route_not_forward_counterexample :
    route_dfs 20 sampleDb ("New York", "Los Angeles")
      = some (["Denver", "Chicago", "New York", "Los Angeles"], 3000) ∧
    ("Denver" : String) ≠ "New York" := by
  exact ⟨by decide, by decide⟩

/-- C4 (amended): when the direct-edge check fails and
`find_connecting(origin)` yields `(next_location, weight)`, the frame pushed
is `Flight(from_to, weight)` — its destination field is the (truncated)
overall search destination, not `next_location` — and the search recurses
with `(next_location, destination)`. -/
theorem dfs_extend_pushes_overall_destination (fuel : Nat)
    (db db' bt : List Flight) (from_to : String × String)
    (anywhere : String) (d : Int)
    (hno : ¬ 0 < (get_distance db from_to).getD 0)
    (hfc : find_connecting db from_to.1 = (some (anywhere, d), db')) :
    search_flight_dfs (fuel + 1) db bt from_to
      = search_flight_dfs fuel db' (mkFlight from_to d :: bt)
          (anywhere, from_to.2) ∧
    (mkFlight from_to d).to_ = trunc from_to.2 := by
  constructor
  · simp only [search_flight_dfs, hno, if_false]
    unfold dfs_extend
    rw [hfc]
  · rfl

/-- Witness for `dfs_extend_pushes_overall_destination` at the two-edge
graph A→B→C with query (A, C): the pushed frame is (A, C, 3). -/
theorem dfs_extend_pushes_overall_destination_witness :
    search_flight_dfs 10 [mkFlight ("A", "B") 3, mkFlight ("B", "C") 4] []
        ("A", "C")
      = search_flight_dfs 9
          [{ mkFlight ("A", "B") 3 with skip := true }, mkFlight ("B", "C") 4]
          [mkFlight ("A", "C") 3] ("B", "C") ∧
    (mkFlight ("A", "C") 3).to_ = trunc "C" :=
  dfs_extend_pushes_overall_destination 9
    [mkFlight ("A", "B") 3, mkFlight ("B", "C") 4]
    [{ mkFlight ("A", "B") 3 with skip := true }, mkFlight ("B", "C") 4] []
    ("A", "C") "B" 3 (by decide) (by decide)

/-- C4 counterexample: on the graph A→B (3), B→C (4) with query (A, C),
`find_connecting("A")` yields next location "B", yet the frame pushed for
that step is (A, C, 3): its destination field is "C" (the overall
destination), not the claimed next location "B". -/
theorem dfs_push_destination_counterexample :
    (find_connecting [mkFlight ("A", "B") 3, mkFlight ("B", "C") 4] "A").1
      = some ("B", 3) ∧
    search_flight_dfs 10 [mkFlight ("A", "B") 3, mkFlight ("B", "C") 4] []
        ("A", "C")
      = (.found,
          [{ mkFlight ("A", "B") 3 with skip := true }, mkFlight ("B", "C") 4],
          [mkFlight ("B", "C") 4, mkFlight ("A", "C") 3]) ∧
    (mkFlight ("A", "C") 3).to_ ≠ "B" := by
  refine ⟨by decide, by decide, by decide⟩

/-- C10 (amended): whenever the first direct edge match has weight 0 (or no
direct edge exists at all), `value_or(0)` makes the direct-edge check fail,
and one step of the depth-first search is exactly the extension step — the
same continuation as when no direct edge exists. A zero-weight direct edge
is never accepted by the check. -/
theorem zero_weight_direct_edge_not_accepted (fuel : Nat)
    (db bt : List Flight) (from_to : String × String)
    (h : get_distance db from_to = some 0 ∨ get_distance db from_to = none) :
    search_flight_dfs (fuel + 1) db bt from_to
      = dfs_extend (search_flight_dfs fuel) db bt from_to := by
  have hz : (get_distance db from_to).getD 0 = 0 := by
    rcases h with h | h <;> simp [h]
  simp [search_flight_dfs, hz]

/-- Witness for `zero_weight_direct_edge_not_accepted` at the one-edge graph
with a zero-weight direct edge A→B (0) and query (A, B). -/
theorem zero_weight_direct_edge_not_accepted_witness :
    search_flight_dfs 10 [mkFlight ("A", "B") 0] [] ("A", "B")
      = dfs_extend (search_flight_dfs 9) [mkFlight ("A", "B") 0] [] ("A", "B") :=
  zero_weight_direct_edge_not_accepted 9 [mkFlight ("A", "B") 0] [] ("A", "B")
    (Or.inl (by decide))

/-- C10 counterexample: the graph A→B (5), A→B (0) contains a zero-weight
exact edge from A to B, yet the search with query (A, B) does not proceed to
the extension step: the direct-edge check accepts the first match (weight 5)
and stops, leaving the graph unmarked — unlike the extension step, which
would mark an edge visited. -/
theorem zero_weight_direct_edge_counterexample :
    (mkFlight ("A", "B") 0) ∈ [mkFlight ("A", "B") 5, mkFlight ("A", "B") 0] ∧
    search_flight_dfs 10 [mkFlight ("A", "B") 5, mkFlight ("A", "B") 0] []
        ("A", "B")
      = (.found, [mkFlight ("A", "B") 5, mkFlight ("A", "B") 0],
          [mkFlight ("A", "B") 5]) ∧
    search_flight_dfs 10 [mkFlight ("A", "B") 5, mkFlight ("A", "B") 0] []
        ("A", "B")
      ≠ dfs_extend (search_flight_dfs 9)
          [mkFlight ("A", "B") 5, mkFlight ("A", "B") 0] [] ("A", "B") := by
  refine ⟨by decide, by decide, by decide⟩

/-- C3 (amended): `append_flight` performs no capacity check at all — for
every graph, whatever its size, insertion appends the new edge at the end,
keeps every existing edge, and reports no error; there is no
CapacityExceeded path in the code. -/
theorem append_flight_always_appends (db : List Flight)
    (from_to : String × String) (d : Int) :
    (append_flight db from_to d).length = db.length + 1 ∧
    (append_flight db from_to d).take db.length = db ∧
    (append_flight db from_to d).getLast? = some (mkFlight from_to d) := by
  refine ⟨by simp [append_flight], ?_, ?_⟩
  · unfold append_flight
    exact List.take_left db [mkFlight from_to d]
  · unfold append_flight
    exact List.getLast?_concat db

/-- A graph already holding the program's fixed capacity of `MAX = 100`
edges. -/
def fullDb : List Flight := List.replicate 100 (mkFlight ("A", "B") 1)

/-- C3 counterexample: with the graph already holding 100 edges (the
program's capacity `MAX`), an insertion is not refused: the edge sequence
grows to 101 and changes — no CapacityExceeded error exists. -/
theorem append_beyond_capacity_counterexample :
    fullDb.length = 100 ∧
    (append_flight fullDb ("C", "D") 7).length = 101 ∧
    append_flight fullDb ("C", "D") 7 ≠ fullDb := by
  refine ⟨by simp [fullDb], by simp [append_flight, fullDb], ?_⟩
  intro h
  have hl := congrArg List.length h
  simp [append_flight, fullDb] at hl

/-- C1: on a graph with no route from the origin (here the origin "C" has no
outgoing edge at all), the depth-first search reaches the backtrack branch
with an empty frame stack and the C++ calls `bt.top()` / `bt.pop()` on that
empty stack — undefined behaviour, modelled as `stackUnderflow`. No
NoRouteFound detection or reporting exists in the code. -/
theorem dfs_unreachable_stack_underflow :
    search_flight_dfs 10 [mkFlight ("A", "B") 5] [] ("C", "D")
      = (.stackUnderflow, [mkFlight ("A", "B") 5], []) := by decide

/-- C2: on the graph A→B (5) with query (A, C), the lookahead strategy's
first turn marks the only outgoing edge visited without reaching "C"; the
second turn's `find_connecting` returns an empty optional and the C++ calls
`res.value()` on it, throwing `std::bad_optional_access` — a crash, modelled
as `valueCrash`, not a NoRouteFound-equivalent result. -/
theorem bfs_exhaustion_value_crash :
    search_flight_bfs 10 [mkFlight ("A", "B") 5] [] ("A", "C")
      = (.valueCrash, [{ mkFlight ("A", "B") 5 with skip := true }], []) := by
  decide

/-- C8: every operation of either strategy preserves each stored edge's
origin, destination and weight, and the number and order of the stored
edges; the only mutation is that a `skip` marker may go from false to true —
no operation, backtracking included, ever resets one from true to false.
(`get_distance` takes and returns no graph at all in the model, matching the
non-mutating `std::find_if` of the C++.) -/
theorem search_preserves_graph (fuel : Nat) (db bt : List Flight)
    (from_to : String × String) (frm : String) :
    GraphPreserved db (find_connecting db frm).2 ∧
    GraphPreserved db (search_flight_dfs fuel db bt from_to).2.1 ∧
    GraphPreserved db (search_flight_bfs fuel db bt from_to).2.1 ∧
    (search_flight_dfs fuel db bt from_to).2.1.length = db.length ∧
    (search_flight_bfs fuel db bt from_to).2.1.length = db.length :=
  ⟨find_connecting_preserves db frm,
   search_flight_dfs_preserves fuel db bt from_to,
   search_flight_bfs_preserves fuel db bt from_to,
   graphPreserved_length (search_flight_dfs_preserves fuel db bt from_to),
   graphPreserved_length (search_flight_bfs_preserves fuel db bt from_to)⟩

